import Mathlib

/-!
Verification of the decaf lexical front-end (`src/lexer.rs`).

The lexer is embedded shallowly: the input buffer and every span are byte
lists (`List Nat`), a `Spanned` value is a pair of the classified result and
its fragment bytes, and each Rust matcher becomes a Lean function with the
same name.  The repository's `span` module is not part of the sources given,
so its primitive operations (`split_once`, `take_while` with a stateful
closure, `find`, `split_at`, `starts_with`, `ends_with`) are modelled from
the spec's description of the span type, with their edge behaviour pinned
down by the lexer's own call sites.
-/

namespace Dcf

/-- `u8::is_ascii_digit`. -/
def isAsciiDigit (c : Nat) : Bool := 48 ≤ c && c ≤ 57

/-- `u8::is_ascii_alphabetic`. -/
def isAsciiAlpha (c : Nat) : Bool := (65 ≤ c && c ≤ 90) || (97 ≤ c && c ≤ 122)

/-- `u8::is_ascii_alphanumeric`. -/
def isAsciiAlphanumeric (c : Nat) : Bool := isAsciiAlpha c || isAsciiDigit c

/-- `u8::is_ascii_whitespace`: space, tab, newline, form feed, carriage return. -/
def isAsciiWhitespace (c : Nat) : Bool :=
  c = 32 || c = 9 || c = 10 || c = 12 || c = 13

/-- `u8::is_ascii_hexdigit`. -/
def isAsciiHexDigit (c : Nat) : Bool :=
  isAsciiDigit c || (97 ≤ c && c ≤ 102) || (65 ≤ c && c ≤ 70)

/-- Modelled from the spec: the missing `span` module's `split_once`
("splitting at the first byte satisfying/failing a predicate").  It splits
at the first byte satisfying the predicate, that byte starting the second
half, and returns `none` when no byte satisfies it — the convention every
lexer call site handles through an `unwrap_or` fallback. -/
def splitOnce (p : Nat → Bool) : List Nat → Option (List Nat × List Nat)
  | [] => none
  | c :: cs =>
    if p c then some ([], c :: cs)
    else
      match splitOnce p cs with
      | none => none
      | some (a, b) => some (c :: a, b)

/-- Modelled from the spec: the missing `span` module's `find`, the index of
the first occurrence of a byte pattern ("prefix/suffix byte-sequence tests"
and subrange search used by the block-comment matcher). -/
def findSub (pat : List Nat) : List Nat → Option Nat
  | [] => if pat = [] then some 0 else none
  | c :: cs =>
    if pat.isPrefixOf (c :: cs) then some 0
    else (findSub pat cs).map (· + 1)

/-- Modelled from the spec: `Span::starts_with`. -/
def startsWith (s pat : List Nat) : Bool := pat.isPrefixOf s

/-- Modelled from the spec: `Span::ends_with`. -/
def endsWith (s pat : List Nat) : Bool := pat.isSuffixOf s

/-- `lexer::Error` — the closed set of lexical error kinds. -/
inductive Error where
  | EmptyHexLiteral : Error
  | InvalidChar : Nat → Error
  | InvalidEscape : Nat → Error
  | UnexpectedChar : Nat → Error
  | EmptyChar : Error
  | NonAsciiChars : Error
  | StringLiteral : Error
  | UnterminatedString : Error
  | UnterminatedComment : Error
  | UnterminatedChar : Error
deriving DecidableEq

/-- `lexer::Token` — the closed set of token categories. -/
inductive Token where
  | Import | If | Else | While | For | Break | Continue | Return
  | Int | Bool | True | False | Void | Len
  | Plus | Minus | Star | Slash | Percent
  | Less | LessEqual | Greater | GreaterEqual | EqualEqual | NotEqual
  | And | Or | Not | Question | Colon
  | Assign | AddAssign | SubAssign | Increment | Decrement
  | Semicolon | Comma | LeftParen | RightParen
  | SquareLeft | SquareRight | CurlyLeft | CurlyRight
  | Identifier | DecimalLiteral | HexLiteral | StringLiteral
  | CharLiteral : Nat → Token
  | Space | LineComment | BlockComment
  | Eof

/-- `lexer::Result = Result<Token, Error>`. -/
inductive LexResult where
  | ok : Token → LexResult
  | err : Error → LexResult

/-- A `Spanned<Result>` is modelled as the result together with its fragment
bytes; a matcher's output pairs it with the remaining span. -/
abbrev Match := (LexResult × List Nat) × List Nat

/-- `lexer::is_escaped_char`: the recognized escape characters
`n`, `t`, `\`, `'`, `"`. -/
def is_escaped_char (c : Nat) : Bool :=
  c = 110 || c = 116 || c = 92 || c = 39 || c = 34

/-- `lexer::is_dcf_char`: the printable bytes allowed in char/string
literals (32–33, 35–38, 40–91, 93–126). -/
def is_dcf_char (c : Nat) : Bool :=
  (32 ≤ c && c ≤ 33) || (35 ≤ c && c ≤ 38) || (40 ≤ c && c ≤ 91) || (93 ≤ c && c ≤ 126)

/-- `lexer::is_ascii`: printable ASCII plus tab, newline, carriage return. -/
def is_ascii (c : Nat) : Bool := (32 ≤ c && c ≤ 126) || c = 9 || c = 10 || c = 13

/-- The per-byte state machine inside `get_string_errors`'s `error_checker`
closure: given the `escape_next` flag and the current byte, produce the
optional error and the new flag. -/
def string_error_checker : Bool → Nat → Option Error × Bool
  | true, c => (if is_escaped_char c then none else some (Error.InvalidEscape c), false)
  | false, c =>
    if c = 92 then (none, true)
    else if !is_dcf_char c then (some (Error.InvalidChar c), false)
    else (none, false)

/-- The byte-validation pass of `get_string_errors`: run the checker over
the listed bytes (index carried along for the error's position). -/
def stringByteErrors : Bool → Nat → List Nat → List (Error × Nat)
  | _, _, [] => []
  | esc, i, c :: cs =>
    match string_error_checker esc c with
    | (some e, esc2) => (e, i) :: stringByteErrors esc2 (i + 1) cs
    | (none, esc2) => stringByteErrors esc2 (i + 1) cs

/-- `lexer::get_string_errors`: validate every byte of the fragment except
the last (`.spans::<1>().take(span.len() - 1)`), then append
`UnterminatedString` (spanned over the whole fragment, position 0) when the
fragment ends with `\"` or does not end with `"`. -/
def get_string_errors (s : List Nat) : List (Error × Nat) :=
  stringByteErrors true 0 (s.take (s.length - 1)) ++
    (if endsWith s [92, 34] || !endsWith s [34] then [(Error.UnterminatedString, 0)] else [])

/-- The keyword table of `lexer::identifier` (spelling `import`). -/
def kwImport : List Nat := [105, 109, 112, 111, 114, 116]
/-- Spelling `void`. -/
def kwVoid : List Nat := [118, 111, 105, 100]
/-- Spelling `int`. -/
def kwInt : List Nat := [105, 110, 116]
/-- Spelling `bool`. -/
def kwBool : List Nat := [98, 111, 111, 108]
/-- Spelling `if`. -/
def kwIf : List Nat := [105, 102]
/-- Spelling `else`. -/
def kwElse : List Nat := [101, 108, 115, 101]
/-- Spelling `for`. -/
def kwFor : List Nat := [102, 111, 114]
/-- Spelling `while`. -/
def kwWhile : List Nat := [119, 104, 105, 108, 101]
/-- Spelling `break`. -/
def kwBreak : List Nat := [98, 114, 101, 97, 107]
/-- Spelling `continue`. -/
def kwContinue : List Nat := [99, 111, 110, 116, 105, 110, 117, 101]
/-- Spelling `return`. -/
def kwReturn : List Nat := [114, 101, 116, 117, 114, 110]
/-- Spelling `len`. -/
def kwLen : List Nat := [108, 101, 110]
/-- Spelling `true`. -/
def kwTrue : List Nat := [116, 114, 117, 101]
/-- Spelling `false`. -/
def kwFalse : List Nat := [102, 97, 108, 115, 101]

/-- The 14 keyword spellings with their tokens, in the order of the source's
match arms. -/
def keywords : List (List Nat × Token) :=
  [(kwImport, Token.Import), (kwVoid, Token.Void), (kwInt, Token.Int),
   (kwBool, Token.Bool), (kwIf, Token.If), (kwElse, Token.Else),
   (kwFor, Token.For), (kwWhile, Token.While), (kwBreak, Token.Break),
   (kwContinue, Token.Continue), (kwReturn, Token.Return), (kwLen, Token.Len),
   (kwTrue, Token.True), (kwFalse, Token.False)]

/-- The `keyword` lookup closure inside `lexer::identifier`: the source's
match over the consumed text, falling through to `Identifier`. -/
def keywordOf (w : List Nat) : Token :=
  if w = kwImport then Token.Import
  else if w = kwVoid then Token.Void
  else if w = kwInt then Token.Int
  else if w = kwBool then Token.Bool
  else if w = kwIf then Token.If
  else if w = kwElse then Token.Else
  else if w = kwFor then Token.For
  else if w = kwWhile then Token.While
  else if w = kwBreak then Token.Break
  else if w = kwContinue then Token.Continue
  else if w = kwReturn then Token.Return
  else if w = kwLen then Token.Len
  else if w = kwTrue then Token.True
  else if w = kwFalse then Token.False
  else Token.Identifier

/-- `lexer::identifier`. -/
def identifier (s : List Nat) : Option Match :=
  match s with
  | [] => none
  | c :: _ =>
    if !isAsciiAlpha c && c != 95 then none
    else
      match splitOnce (fun b => !isAsciiAlphanumeric b && b != 95) s with
      | some (w, rem) => some ((LexResult.ok (keywordOf w), w), rem)
      | none => some ((LexResult.ok (keywordOf s), s), [])

/-- `lexer::skip_spaces`. -/
def skip_spaces (s : List Nat) : Option Match :=
  match s with
  | [] => none
  | c :: _ =>
    if isAsciiWhitespace c then
      match splitOnce (fun b => !isAsciiWhitespace b) s with
      | some (sp, rem) => some ((LexResult.ok Token.Space, sp), rem)
      | none => some ((LexResult.ok Token.Space, s), [])
    else none

/-- `lexer::skip_line_comment`. -/
def skip_line_comment (s : List Nat) : Option Match :=
  if startsWith s [47, 47] then
    match splitOnce (fun c => c = 10) s with
    | some (cmt, rem) => some ((LexResult.ok Token.LineComment, cmt), rem)
    | none => some ((LexResult.ok Token.LineComment, s), [])
  else none

/-- `lexer::skip_block_comment`.  Note the source attaches the *entire*
remaining span (`span.into_spanned(...)`) to a terminated block comment, not
just the consumed `/* ... */` prefix; the remainder is computed separately
as `span.split_at(i + 4).1`. -/
def skip_block_comment (s : List Nat) : Option Match :=
  if startsWith s [47, 42] then
    match findSub [42, 47] (s.drop 2) with
    | some i => some ((LexResult.ok Token.BlockComment, s), s.drop (i + 4))
    | none => some ((LexResult.err Error.UnterminatedComment, s), [])
  else none

/-- `lexer::int_literal`.  In the hex branch the source computes `lit` from
`split_once` on the span after the `0x` prefix, falling back to
`span.split_at(span.len() - 2)` when every byte is a hex digit, and then
uses only `lit.len()` to slice the original span. -/
def int_literal (s : List Nat) : Option Match :=
  match s with
  | [] => none
  | c :: _ =>
    if isAsciiDigit c then
      if startsWith s [48, 120] then
        let lit :=
          match splitOnce (fun b => !isAsciiHexDigit b) (s.drop 2) with
          | some (a, _) => a
          | none => s.take (s.length - 2)
        if lit = [] then
          some ((LexResult.err Error.EmptyHexLiteral, s.take 2), s.drop 2)
        else
          some ((LexResult.ok Token.HexLiteral, s.take (lit.length + 2)),
            s.drop (lit.length + 2))
      else
        match splitOnce (fun b => !isAsciiDigit b) s with
        | some (lit, rem) => some ((LexResult.ok Token.DecimalLiteral, lit), rem)
        | none => some ((LexResult.ok Token.DecimalLiteral, s), [])
    else none

/-- `lexer::escaped_char` (the source asserts its argument has length 4 and
begins `'\`; the catch-all arm is unreachable from its call site). -/
def escaped_char (s : List Nat) : LexResult × List Nat :=
  match s with
  | [_, _, c, q] =>
    if q ≠ 39 then (LexResult.err Error.UnterminatedChar, s)
    else if c = 110 then (LexResult.ok (Token.CharLiteral 10), s)
    else if c = 116 then (LexResult.ok (Token.CharLiteral 9), s)
    else if c = 92 then (LexResult.ok (Token.CharLiteral 92), s)
    else if c = 39 then (LexResult.ok (Token.CharLiteral 39), s)
    else if c = 34 then (LexResult.ok (Token.CharLiteral 34), s)
    else (LexResult.err (Error.InvalidEscape c), s)
  | _ => (LexResult.err Error.UnterminatedChar, s)

/-- `lexer::dcf_char` (the source asserts length 3; catch-all unreachable). -/
def dcf_char (s : List Nat) : LexResult × List Nat :=
  match s with
  | [_, c, _] =>
    if is_dcf_char c then (LexResult.ok (Token.CharLiteral c), s)
    else (LexResult.err (Error.InvalidChar c), s)
  | _ => (LexResult.err Error.UnterminatedChar, s)

/-- `lexer::char_literal`. -/
def char_literal (s : List Nat) : Option Match :=
  if s.length < 3 || !startsWith s [39] then none
  else if s.getD 1 0 = 92 then
    if s.length < 4 then some ((LexResult.err Error.UnterminatedChar, s), [])
    else some (escaped_char (s.take 4), s.drop 4)
  else if s.getD 1 0 = 39 then
    some ((LexResult.err Error.EmptyChar, s.take 2), s.drop 2)
  else if s.getD 2 0 ≠ 39 then
    some ((LexResult.err Error.UnterminatedChar, s.take 2), s.drop 2)
  else some (dcf_char (s.take 3), s.drop 3)

/-- Modelled from the spec together with `lexer::string_literal`'s closure:
the span's stateful `take_while` ("consuming a maximal prefix satisfying a
predicate"), specialised to the string-literal closure.  The two state
components are `last_char` and `break_next`; a byte is taken while
`break_next` is false, a `"` whose predecessor state is not `\` sets
`break_next`, and any other byte becomes the new `last_char`. -/
def stringTake : Nat → Bool → List Nat → List Nat × List Nat
  | _, _, [] => ([], [])
  | lastChar, breakNext, c :: cs =>
    if breakNext then ([], c :: cs)
    else if c = 34 && lastChar ≠ 92 then
      let p := stringTake lastChar true cs
      (c :: p.1, p.2)
    else
      let p := stringTake c breakNext cs
      (c :: p.1, p.2)

/-- `lexer::string_literal` (the run starts with `last_char` primed to `\`
so the opening quote does not terminate it). -/
def string_literal (s : List Nat) : Option Match :=
  match s with
  | [] => none
  | c :: _ =>
    if c = 34 then
      let p := stringTake 92 false s
      if get_string_errors p.1 = [] then
        some ((LexResult.ok Token.StringLiteral, p.1), p.2)
      else
        some ((LexResult.err Error.StringLiteral, p.1), p.2)
    else none

/-- `lexer::symbol`: two-byte operators first, then one-byte symbols, then
`UnexpectedChar` for any non-alphanumeric byte. -/
def symbol (s : List Nat) : Option Match :=
  let two : Option Match :=
    if s.length > 1 then
      let ch := s.take 2
      let rem := s.drop 2
      if ch = [60, 61] then some ((LexResult.ok Token.LessEqual, ch), rem)
      else if ch = [62, 61] then some ((LexResult.ok Token.GreaterEqual, ch), rem)
      else if ch = [61, 61] then some ((LexResult.ok Token.EqualEqual, ch), rem)
      else if ch = [33, 61] then some ((LexResult.ok Token.NotEqual, ch), rem)
      else if ch = [43, 61] then some ((LexResult.ok Token.AddAssign, ch), rem)
      else if ch = [45, 61] then some ((LexResult.ok Token.SubAssign, ch), rem)
      else if ch = [38, 38] then some ((LexResult.ok Token.And, ch), rem)
      else if ch = [124, 124] then some ((LexResult.ok Token.Or, ch), rem)
      else if ch = [45, 45] then some ((LexResult.ok Token.Decrement, ch), rem)
      else if ch = [43, 43] then some ((LexResult.ok Token.Increment, ch), rem)
      else none
    else none
  match two with
  | some r => some r
  | none =>
    match s with
    | [] => none
    | c :: rem =>
      if c = 43 then some ((LexResult.ok Token.Plus, [c]), rem)
      else if c = 45 then some ((LexResult.ok Token.Minus, [c]), rem)
      else if c = 42 then some ((LexResult.ok Token.Star, [c]), rem)
      else if c = 47 then some ((LexResult.ok Token.Slash, [c]), rem)
      else if c = 37 then some ((LexResult.ok Token.Percent, [c]), rem)
      else if c = 33 then some ((LexResult.ok Token.Not, [c]), rem)
      else if c = 59 then some ((LexResult.ok Token.Semicolon, [c]), rem)
      else if c = 60 then some ((LexResult.ok Token.Less, [c]), rem)
      else if c = 62 then some ((LexResult.ok Token.Greater, [c]), rem)
      else if c = 61 then some ((LexResult.ok Token.Assign, [c]), rem)
      else if c = 123 then some ((LexResult.ok Token.CurlyLeft, [c]), rem)
      else if c = 125 then some ((LexResult.ok Token.CurlyRight, [c]), rem)
      else if c = 91 then some ((LexResult.ok Token.SquareLeft, [c]), rem)
      else if c = 93 then some ((LexResult.ok Token.SquareRight, [c]), rem)
      else if c = 44 then some ((LexResult.ok Token.Comma, [c]), rem)
      else if c = 40 then some ((LexResult.ok Token.LeftParen, [c]), rem)
      else if c = 41 then some ((LexResult.ok Token.RightParen, [c]), rem)
      else if c = 63 then some ((LexResult.ok Token.Question, [c]), rem)
      else if c = 58 then some ((LexResult.ok Token.Colon, [c]), rem)
      else if !isAsciiAlphanumeric c then
        some ((LexResult.err (Error.UnexpectedChar c), [c]), rem)
      else none

/-- Outcome of a matcher or of the dispatcher: declined, matched, or a Rust
panic (`Option::unwrap` on `None`). -/
inductive MatchRes where
  | decline : MatchRes
  | panicked : MatchRes
  | tok : LexResult → List Nat → List Nat → MatchRes

/-- `lexer::non_ascii_graphic_chars`: `span.split_once(is_ascii).unwrap()`.
When the span contains no ASCII byte at all, `split_once` yields `None` and
the `unwrap` panics (the source's comment claims this happens only for empty
spans, but the dispatcher never passes an empty span). -/
def non_ascii_graphic_chars (s : List Nat) : MatchRes :=
  match splitOnce is_ascii s with
  | none => MatchRes.panicked
  | some (bad, rem) =>
    if bad = [] then MatchRes.decline
    else MatchRes.tok (LexResult.err Error.NonAsciiChars) bad rem

/-- Lift an optional match to a `MatchRes`. -/
def ofOpt : Option Match → MatchRes
  | none => MatchRes.decline
  | some ((r, f), rem) => MatchRes.tok r f rem

/-- `lexer::token` — the dispatcher, trying the matchers in the source's
fixed order. -/
def token (s : List Nat) : MatchRes :=
  if s.isEmpty then MatchRes.decline
  else
    match non_ascii_graphic_chars s with
    | MatchRes.decline =>
      ofOpt <|
        (skip_spaces s).orElse fun _ =>
        (skip_line_comment s).orElse fun _ =>
        (skip_block_comment s).orElse fun _ =>
        (identifier s).orElse fun _ =>
        (int_literal s).orElse fun _ =>
        (char_literal s).orElse fun _ =>
        (string_literal s).orElse fun _ =>
        symbol s
    | r => r

/-- The raw dispatcher loop of `lexer::tokens` (the `iter::from_fn` part,
before trivia filtering): repeatedly dispatch until the remaining span is
empty, collecting every `(result, fragment)` item; `none` models a panic
escaping the closure.  Fuel equals the input length: every successful match
consumes at least one byte, so it never runs out before the span empties. -/
def lexItemsFuel : Nat → List Nat → Option (List (LexResult × List Nat))
  | 0, _ => some []
  | Nat.succ n, s =>
    if s.isEmpty then some []
    else
      match token s with
      | MatchRes.decline => some []
      | MatchRes.panicked => none
      | MatchRes.tok r frag rem => (lexItemsFuel n rem).map (fun l => (r, frag) :: l)

/-- All items produced by the dispatcher over a whole buffer. -/
def lexItems (s : List Nat) : Option (List (LexResult × List Nat)) :=
  lexItemsFuel s.length s

/-- Trivia filtered out of the surfaced stream by `lexer::tokens`. -/
def isTrivia : LexResult → Bool
  | LexResult.ok Token.Space => true
  | LexResult.ok Token.LineComment => true
  | LexResult.ok Token.BlockComment => true
  | _ => false

/-- `lexer::tokens`: the surfaced stream — dispatcher items with trivia
dropped, then the single synthetic end-of-file item whose fragment is the
empty slice `text.split_at(text.len()).1`; `none` models the panic. -/
def tokens (s : List Nat) : Option (List (LexResult × List Nat)) :=
  (lexItems s).map fun items =>
    items.filter (fun it => !isTrivia it.1) ++ [(LexResult.ok Token.Eof, [])]

/-- Concatenation of the fragments of a list of items. -/
def fragsJoin (items : List (LexResult × List Nat)) : List Nat :=
  (items.map Prod.snd).flatten

/-- `print_u8` inside `lexer::log_err`: an ASCII digit is rendered as
itself, any other byte as `\x` followed by `format!("{:02x}", c)`, i.e. the
two lowercase hex digits of the byte. -/
def hexLowerDigit (n : Nat) : Nat := if n < 10 then 48 + n else 87 + n

/-- `print_u8` proper (fragments are byte lists of the rendered text). -/
def print_u8 (c : Nat) : List Nat :=
  if isAsciiDigit c then [c] else [92, 120, hexLowerDigit (c / 16), hexLowerDigit (c % 16)]

/-- A byte that is a lowercase hexadecimal digit character (`0`–`9`, `a`–`f`). -/
def isLowerHexDigitChar (d : Nat) : Bool := isAsciiDigit d || (97 ≤ d && d ≤ 102)

/-- Numeric value of a hexadecimal digit character. -/
def hexVal (d : Nat) : Nat := if d ≤ 57 then d - 48 else d - 87

/-- Modelled from the spec's words for claim comparison: the position of the
first unescaped closing quote, where a quote counts as escaped exactly when
the byte before it is an *unescaped* backslash (tracked recursively by the
flag "previous byte was an unescaped backslash"). -/
def specCloseIdx : Bool → List Nat → Option Nat
  | _, [] => none
  | esc, c :: cs =>
    if c = 34 && !esc then some 0
    else (specCloseIdx (c = 92 && !esc) cs).map (· + 1)

/-- Modelled from the spec's words for claim comparison: the string run the
claim describes — from the opening quote to the first later unescaped
closing quote inclusive (per `specCloseIdx`), or the whole input if none. -/
def claimStringRun (s : List Nat) : List Nat × List Nat :=
  match s with
  | [] => ([], [])
  | _ :: rest =>
    match specCloseIdx false rest with
    | some j => (s.take (j + 2), s.drop (j + 2))
    | none => (s, [])

/-- Modelled from the claim's words for comparison: the fragment ends in an
unescaped closing quote that follows the opening quote (escape status of the
final byte computed over all preceding bytes, starting unescaped). -/
def claimEndsUnescapedClose (s : List Nat) : Bool :=
  2 ≤ s.length && s.getLastD 0 = 34 &&
    !(s.dropLast.foldl (fun esc c => c = 92 && !esc) false)

/-- The source's actual escape tracking, as a searchable index: the first
position (from the byte after `prev`) holding a `"` whose immediately
preceding raw byte is not `\`. -/
def naiveCloseIdx : Nat → List Nat → Option Nat
  | _, [] => none
  | prev, c :: cs =>
    if c = 34 && prev ≠ 92 then some 0
    else (naiveCloseIdx c cs).map (· + 1)

/-- A byte the identifier matcher keeps consuming: ASCII alphanumeric or
underscore (the negation of `identifier`'s split predicate). -/
def isIdentByte (c : Nat) : Bool := isAsciiAlphanumeric c || c = 95

/- ------------------------------------------------------------------ -/
/- Helper lemmas about the span primitives and the matchers.           -/
/- ------------------------------------------------------------------ -/

/-- `splitOnce` over a list whose first part fails the predicate and whose
second part, if any, starts with a byte satisfying it. -/
theorem splitOnce_append (q : Nat → Bool) (w rest : List Nat)
    (hw : ∀ c ∈ w, q c = false) (hr : rest = [] ∨ q (rest.headD 0) = true) :
    splitOnce q (w ++ rest) = if rest = [] then none else some (w, rest) := by
  induction w with
  | nil =>
    rcases hr with rfl | hr
    · rfl
    · cases rest with
      | nil => rfl
      | cons r rs => simp_all [splitOnce]
  | cons c cs ih =>
    have hc : q c = false := hw c (by simp)
    have ih' := ih (fun b hb => hw b (by simp [hb]))
    by_cases hrest : rest = []
    · subst hrest; simp_all [splitOnce]
    · simp_all [splitOnce]

/-- Once `break_next` is set, the stateful string run stops immediately. -/
theorem stringTake_break (prev : Nat) (cs : List Nat) :
    stringTake prev true cs = ([], cs) := by
  cases cs <;> rfl

/-- The stateful string run splits exactly at `naiveCloseIdx`: the first
quote whose immediately preceding raw byte is not a backslash, inclusive. -/
theorem stringTake_eq_naive (l : List Nat) : ∀ prev : Nat,
    stringTake prev false l =
      match naiveCloseIdx prev l with
      | some j => (l.take (j + 1), l.drop (j + 1))
      | none => (l, []) := by
  induction l with
  | nil => intro prev; rfl
  | cons c cs ih =>
    intro prev
    by_cases h34 : c = 34
    · by_cases hp : prev = 92
      · subst h34 hp
        simp only [stringTake, naiveCloseIdx]
        simp only [decide_True, Ne, not_true_eq_false, decide_False, Bool.and_false,
          Bool.false_eq_true, if_false, ite_false]
        rw [ih 34]
        cases hn : naiveCloseIdx 34 cs <;> simp [hn]
      · subst h34
        simp [stringTake, naiveCloseIdx, hp, stringTake_break]
    · simp only [stringTake, naiveCloseIdx, h34]
      simp only [decide_False, Bool.false_and, Bool.false_eq_true, if_false, ite_false]
      rw [ih c]
      cases hn : naiveCloseIdx c cs <;> simp [hn]

/-- `string_error_checker` only ever reports `InvalidEscape` or
`InvalidChar`. -/
theorem string_error_checker_not_unterminated (esc : Bool) (c : Nat) (e : Error)
    (esc2 : Bool) (h : string_error_checker esc c = (some e, esc2)) :
    e ≠ Error.UnterminatedString := by
  cases esc
  · simp only [string_error_checker] at h
    split at h
    · exact absurd h (by simp)
    · split at h
      · have he : e = Error.InvalidChar c := by
          injection h with h1 h2; injection h1 with h1; exact h1.symm
        subst he; exact fun hh => Error.noConfusion hh
      · exact absurd h (by simp)
  · simp only [string_error_checker] at h
    split at h
    · exact absurd h (by simp)
    · have he : e = Error.InvalidEscape c := by
        injection h with h1 h2; injection h1 with h1; exact h1.symm
      subst he; exact fun hh => Error.noConfusion hh

/-- Every error of the byte-validation pass is one of the per-byte kinds and
indexes a byte of the examined list. -/
theorem stringByteErrors_facts : ∀ (l : List Nat) (esc : Bool) (i0 : Nat)
    (e : Error) (i : Nat), (e, i) ∈ stringByteErrors esc i0 l →
    e ≠ Error.UnterminatedString ∧ i < i0 + l.length := by
  intro l
  induction l with
  | nil => intro esc i0 e i h; simp [stringByteErrors] at h
  | cons c cs ih =>
    intro esc i0 e i h
    unfold stringByteErrors at h
    rcases hch : string_error_checker esc c with ⟨oe, esc2⟩
    rw [hch] at h
    cases oe with
    | none =>
      have hf := ih esc2 (i0 + 1) e i h
      exact ⟨hf.1, by have := hf.2; simp only [List.length_cons]; omega⟩
    | some e' =>
      rcases List.mem_cons.mp h with heq | hmem
      · injection heq with ha hb
        subst ha; subst hb
        refine ⟨string_error_checker_not_unterminated esc c e esc2 hch, ?_⟩
        simp only [List.length_cons]; omega
      · have hf := ih esc2 (i0 + 1) e i hmem
        exact ⟨hf.1, by have := hf.2; simp only [List.length_cons]; omega⟩

/- ------------------------------------------------------------------ -/
/- Claim theorems.                                                     -/
/- ------------------------------------------------------------------ -/

/-- Claim C1: byte conservation fails.  On the buffer `/**/x` the
dispatcher produces a terminated block-comment item whose fragment is the
whole remaining span (including the trailing `x`), followed by an
identifier item for that same `x`; concatenating the fragments duplicates
the final byte instead of reconstructing the buffer. -/
theorem block_comment_breaks_byte_conservation :
    (lexItems [47, 42, 42, 47, 120]).map fragsJoin = some [47, 42, 42, 47, 120, 120] ∧
      [47, 42, 42, 47, 120, 120] ≠ [47, 42, 42, 47, 120] := by
  exact ⟨rfl, by decide⟩

/-- Claim C2: total recovery fails.  On the buffer consisting of the single
non-ASCII byte `0xFF` the non-ASCII run extends to end-of-input, so
`split_once(is_ascii)` finds no split point and the matcher's `unwrap`
panics instead of returning a result. -/
theorem token_panics_on_nonascii_run_to_eof :
    token [255] = MatchRes.panicked := by
  exact rfl

/-- Claim C3: the driver does not always produce a sequence ending in an
end-of-file item — on the buffer `[0xFF]` the dispatcher panics on the
first pull, so no item (and in particular no end-of-file item) is ever
produced. -/
theorem tokens_driver_panics_before_eof :
    tokens [255] = none := by
  exact rfl

/-- Claim C4 counterexample: on the buffer `"\\"x` (quote, backslash,
backslash, quote, `x`) the claim's escape rule makes the second quote
unescaped (its preceding backslash is itself escaped), so the claimed run is
the first four bytes with remainder `x`; the code instead treats the quote
as escaped and the run swallows the whole buffer. -/
theorem string_run_escape_claim_refuted :
    string_literal [34, 92, 92, 34, 120] =
        some ((LexResult.err Error.StringLiteral, [34, 92, 92, 34, 120]), []) ∧
      claimStringRun [34, 92, 92, 34, 120] = ([34, 92, 92, 34], [120]) := by
  exact ⟨rfl, rfl⟩

/-- Claim C4 (amended): the string-literal matcher consumes a run starting
at the opening quote and ending at the first later double-quote byte whose
immediately preceding raw byte is not a backslash (whether or not that
backslash is itself escaped), including that quote; with no such quote the
run extends to end-of-input. -/
theorem string_run_naive_escape (rest : List Nat) :
    stringTake 92 false (34 :: rest) =
      (match naiveCloseIdx 34 rest with
       | some j => (34 :: rest.take (j + 1), rest.drop (j + 1))
       | none => (34 :: rest, [])) ∧
    ∀ r f rem, string_literal (34 :: rest) = some ((r, f), rem) →
      (f, rem) = stringTake 92 false (34 :: rest) := by
  constructor
  · simp only [stringTake]
    simp only [decide_True, Ne, not_true_eq_false, decide_False, Bool.and_false,
      Bool.false_eq_true, if_false, ite_false]
    rw [stringTake_eq_naive rest 34]
    cases hn : naiveCloseIdx 34 rest <;> simp [hn]
  · intro r f rem hsl
    simp only [string_literal, decide_True, if_true, ite_true] at hsl
    split at hsl
    · injection hsl with h1
      injection h1 with h2 h3
      injection h2 with h4 h5
      subst h5; subst h3; rfl
    · injection hsl with h1
      injection h1 with h2 h3
      injection h2 with h4 h5
      subst h5; subst h3; rfl

/-- Witness for the amended C4 theorem at the buffer `"a"x`. -/
theorem string_run_naive_escape_witness :
    stringTake 92 false (34 :: [97, 34, 120]) =
      (match naiveCloseIdx 34 [97, 34, 120] with
       | some j => (34 :: List.take (j + 1) [97, 34, 120], List.drop (j + 1) [97, 34, 120])
       | none => (34 :: [97, 34, 120], [])) ∧
    (([34, 97, 34], [120]) : List Nat × List Nat) = stringTake 92 false (34 :: [97, 34, 120]) := by
  exact ⟨(string_run_naive_escape [97, 34, 120]).1,
    (string_run_naive_escape [97, 34, 120]).2 (LexResult.ok Token.StringLiteral)
      [34, 97, 34] [120] rfl⟩

/-- Claim C5 counterexample: the fragment consisting of the single opening
quote does not end in a closing quote that follows the opening quote, yet
`get_string_errors` reports nothing at all — no `UnterminatedString`. -/
theorem unterminated_string_claim_refuted :
    get_string_errors [34] = [] ∧ claimEndsUnescapedClose [34] = false := by
  exact ⟨rfl, rfl⟩

/-- Claim C5 (amended): `get_string_errors` emits an `UnterminatedString`
error if and only if the fragment ends in the two bytes `\"` or does not
end in a `"` byte at all (a pure suffix test: the opening quote itself
counts as a terminating quote, and a quote after two backslashes does
not). -/
theorem unterminated_string_iff_suffix (s : List Nat) :
    (∃ i, (Error.UnterminatedString, i) ∈ get_string_errors s) ↔
      (endsWith s [92, 34] || !endsWith s [34]) = true := by
  constructor
  · rintro ⟨i, hmem⟩
    unfold get_string_errors at hmem
    rcases List.mem_append.mp hmem with hb | ht
    · exact absurd rfl (stringByteErrors_facts _ _ _ _ _ hb).1
    · by_cases hc : (endsWith s [92, 34] || !endsWith s [34]) = true
      · exact hc
      · rw [if_neg hc] at ht
        simp at ht
  · intro hcond
    refine ⟨0, ?_⟩
    unfold get_string_errors
    rw [if_pos hcond]
    simp

/-- Claim C6 counterexample: on the single byte `'` (an opening quote with
fewer than 3 bytes remaining) the character-literal matcher declines
(returns `None`) instead of yielding an `UnterminatedChar` error. -/
theorem short_char_literal_claim_refuted :
    char_literal [39] = none := by
  exact rfl

/-- Claim C6 (amended): when the remaining input starts with a single quote
but holds fewer than 3 bytes the character-literal matcher declines (the
quote is later consumed by the symbol matcher as `UnexpectedChar`); only
when at least 3 bytes remain, the second byte is a backslash, and fewer
than 4 bytes are available (exactly 3) does it yield `UnterminatedChar`
consuming all remaining bytes. -/
theorem char_literal_short_cases :
    (∀ s : List Nat, s.headD 0 = 39 → s.length < 3 → char_literal s = none) ∧
    (∀ c : Nat, char_literal [39, 92, c] =
      some ((LexResult.err Error.UnterminatedChar, [39, 92, c]), [])) := by
  constructor
  · intro s _ hlen
    unfold char_literal
    rw [if_pos]
    simp [hlen]
  · intro c
    rfl

/-- Witness for the amended C6 theorem: the empty-tail case at `'` and the
short-escape case at `'\n`-without-closing-quote. -/
theorem char_literal_short_cases_witness :
    char_literal [39] = none ∧
      char_literal [39, 92, 110] =
        some ((LexResult.err Error.UnterminatedChar, [39, 92, 110]), []) := by
  exact ⟨char_literal_short_cases.1 [39] rfl (by decide), char_literal_short_cases.2 110⟩


/-- Evaluation of the integer-literal matcher on a `0x`-prefixed span,
following the source's computation of `lit` and its slicing of the original
span by `lit.len() + 2`. -/
theorem int_literal_0x (t : List Nat) :
    int_literal (48 :: 120 :: t) =
      (match splitOnce (fun b => !isAsciiHexDigit b) t with
        | some (a, _) =>
          if a = [] then some ((LexResult.err Error.EmptyHexLiteral, [48, 120]), t)
          else some ((LexResult.ok Token.HexLiteral, 48 :: 120 :: t.take a.length),
            t.drop a.length)
        | none =>
          if t = [] then some ((LexResult.err Error.EmptyHexLiteral, [48, 120]), t)
          else some ((LexResult.ok Token.HexLiteral, 48 :: 120 :: t), [])) := by
  simp only [int_literal, startsWith, List.isPrefixOf, BEq.beq, Nat.beq, decide_True,
    Bool.and_true, Bool.true_and, if_true, ite_true]
  rw [if_pos (by decide : isAsciiDigit 48 = true)]
  cases hs : splitOnce (fun b => !isAsciiHexDigit b) t with
  | none =>
    simp only [List.drop_succ_cons, List.drop_zero, hs, List.length_cons]
    rw [show t.length + 1 + 1 - 2 = t.length from by omega]
    cases t with
    | nil => rfl
    | cons x xs =>
      have hlen : (List.take (x :: xs).length (48 :: 120 :: x :: xs)).length =
          (x :: xs).length := by
        rw [List.length_take]
        simp only [List.length_cons]
        omega
      have hne2 : List.take (x :: xs).length (48 :: 120 :: x :: xs) ≠ [] := by
        intro h
        rw [h] at hlen
        simp at hlen
      rw [if_neg hne2, if_neg (List.cons_ne_nil x xs), hlen]
      rw [show (x :: xs).length + 2 = (48 :: 120 :: x :: xs).length from by simp,
        List.take_length, List.drop_length]
  | some p =>
    simp only [List.drop_succ_cons, List.drop_zero, hs, List.length_cons]
    rfl

/-- Claim C7: the hex-literal boundary.  For a remaining input of the form
`0x` + hex-digit run + non-hex tail: with zero hex digits the matcher yields
`EmptyHexLiteral` with fragment exactly `0x` and the remainder starting
right after those two bytes; with one or more digits it yields a
`HexLiteral` token covering `0x` plus the maximal digit run, leaving the
tail unconsumed. -/
theorem hex_literal_boundary (digits rest : List Nat)
    (hd : ∀ c ∈ digits, isAsciiHexDigit c = true)
    (hr : rest = [] ∨ isAsciiHexDigit (rest.headD 0) = false) :
    (digits = [] →
      int_literal (48 :: 120 :: (digits ++ rest)) =
        some ((LexResult.err Error.EmptyHexLiteral, [48, 120]), rest)) ∧
    (digits ≠ [] →
      int_literal (48 :: 120 :: (digits ++ rest)) =
        some ((LexResult.ok Token.HexLiteral, 48 :: 120 :: digits), rest)) := by
  have hsplit : splitOnce (fun b => !isAsciiHexDigit b) (digits ++ rest) =
      if rest = [] then none else some (digits, rest) := by
    refine splitOnce_append _ digits rest (fun c hc => by simp [hd c hc]) ?_
    rcases hr with rfl | hr
    · exact Or.inl rfl
    · exact Or.inr (by simpa using hr)
  rw [int_literal_0x (digits ++ rest), hsplit]
  by_cases hrest : rest = []
  · subst hrest
    rw [if_pos rfl]
    simp only [List.append_nil]
    constructor
    · rintro rfl; rfl
    · intro hne
      simp [hne]
  · rw [if_neg hrest]
    constructor
    · rintro rfl
      simp
    · intro hne
      simp [hne, List.take_left, List.drop_left]

/-- Witness for C7: `0x` alone and `0x123abcg`, reproducing the claim's two
boundary examples. -/
theorem hex_literal_boundary_witness :
    int_literal [48, 120] = some ((LexResult.err Error.EmptyHexLiteral, [48, 120]), []) ∧
    int_literal [48, 120, 49, 50, 51, 97, 98, 99, 103] =
      some ((LexResult.ok Token.HexLiteral, [48, 120, 49, 50, 51, 97, 98, 99]), [103]) := by
  constructor
  · exact (hex_literal_boundary [] [] (by decide) (Or.inl rfl)).1 rfl
  · have h := (hex_literal_boundary [49, 50, 51, 97, 98, 99] [103] (by decide)
      (Or.inr (by decide))).2 (by decide)
    simpa using h

/-- Each keyword spelling looks up to its own token, and none of them to
`Identifier`. -/
theorem keywordOf_table : ∀ kt ∈ keywords, keywordOf kt.1 = kt.2 ∧ kt.2 ≠ Token.Identifier := by
  intro kt hkt
  simp only [keywords, List.mem_cons, List.not_mem_nil, or_false] at hkt
  rcases hkt with rfl | rfl | rfl | rfl | rfl | rfl | rfl | rfl | rfl | rfl | rfl | rfl | rfl | rfl <;>
    exact ⟨rfl, fun h => Token.noConfusion h⟩

/-- The identifier matcher on a maximal run `w` followed by a non-identifier
tail consumes exactly `w` and classifies it through `keywordOf`. -/
theorem identifier_run (w rest : List Nat) (hw0 : w ≠ [])
    (hw1 : isAsciiAlpha (w.headD 0) = true ∨ w.headD 0 = 95)
    (hw : ∀ c ∈ w, isIdentByte c = true)
    (hr : rest = [] ∨ isIdentByte (rest.headD 0) = false) :
    identifier (w ++ rest) = some ((LexResult.ok (keywordOf w), w), rest) := by
  obtain ⟨a, w2, rfl⟩ : ∃ a w2, w = a :: w2 := by
    cases w with
    | nil => exact absurd rfl hw0
    | cons a w2 => exact ⟨a, w2, rfl⟩
  have hsplit : splitOnce (fun b => !isAsciiAlphanumeric b && b != 95) ((a :: w2) ++ rest) =
      if rest = [] then none else some (a :: w2, rest) := by
    refine splitOnce_append _ _ rest (fun c hc => ?_) ?_
    · have hcb := hw c hc
      simp only [isIdentByte, Bool.or_eq_true, decide_eq_true_eq] at hcb
      rcases hcb with hcb | hcb
      · simp [hcb]
      · simp [hcb]
    · cases rest with
      | nil => exact Or.inl rfl
      | cons r rs =>
        refine Or.inr ?_
        have hfr : isIdentByte r = false := by
          rcases hr with h | h
          · exact absurd h (List.cons_ne_nil r rs)
          · simpa using h
        simp only [isIdentByte, Bool.or_eq_false_iff, decide_eq_false_iff_not] at hfr
        simp [hfr.1, hfr.2]
  have hguard : (!isAsciiAlpha a && a != 95) = false := by
    simp only [List.headD_cons] at hw1
    rcases hw1 with h | h
    · simp [h]
    · simp [h]
  simp only [List.cons_append, identifier, hguard, Bool.false_eq_true, if_false, ite_false]
  rw [← List.cons_append, hsplit]
  by_cases hrest : rest = []
  · subst hrest
    simp
  · simp [hrest]

/-- Claim C8: keyword exactness — a maximal identifier run equal to one of
the 14 keyword spellings yields that keyword token (never `Identifier`),
and any other maximal alphanumeric/underscore run starting with an ASCII
letter or underscore yields `Identifier`. -/
theorem keyword_exactness (w rest : List Nat) (hw0 : w ≠ [])
    (hw1 : isAsciiAlpha (w.headD 0) = true ∨ w.headD 0 = 95)
    (hw : ∀ c ∈ w, isIdentByte c = true)
    (hr : rest = [] ∨ isIdentByte (rest.headD 0) = false) :
    (∀ kt ∈ keywords, w = kt.1 →
      kt.2 ≠ Token.Identifier ∧
        identifier (w ++ rest) = some ((LexResult.ok kt.2, w), rest)) ∧
    ((∀ kt ∈ keywords, w ≠ kt.1) →
      identifier (w ++ rest) = some ((LexResult.ok Token.Identifier, w), rest)) := by
  have hcore := identifier_run w rest hw0 hw1 hw hr
  constructor
  · intro kt hkt hwe
    have ht := keywordOf_table kt hkt
    refine ⟨ht.2, ?_⟩
    rw [hcore, hwe, ht.1]
  · intro hnk
    have hid : keywordOf w = Token.Identifier := by
      have h1 := hnk (kwImport, Token.Import) (by simp [keywords])
      have h2 := hnk (kwVoid, Token.Void) (by simp [keywords])
      have h3 := hnk (kwInt, Token.Int) (by simp [keywords])
      have h4 := hnk (kwBool, Token.Bool) (by simp [keywords])
      have h5 := hnk (kwIf, Token.If) (by simp [keywords])
      have h6 := hnk (kwElse, Token.Else) (by simp [keywords])
      have h7 := hnk (kwFor, Token.For) (by simp [keywords])
      have h8 := hnk (kwWhile, Token.While) (by simp [keywords])
      have h9 := hnk (kwBreak, Token.Break) (by simp [keywords])
      have h10 := hnk (kwContinue, Token.Continue) (by simp [keywords])
      have h11 := hnk (kwReturn, Token.Return) (by simp [keywords])
      have h12 := hnk (kwLen, Token.Len) (by simp [keywords])
      have h13 := hnk (kwTrue, Token.True) (by simp [keywords])
      have h14 := hnk (kwFalse, Token.False) (by simp [keywords])
      simp only [keywordOf, if_neg h1, if_neg h2, if_neg h3, if_neg h4, if_neg h5,
        if_neg h6, if_neg h7, if_neg h8, if_neg h9, if_neg h10, if_neg h11,
        if_neg h12, if_neg h13, if_neg h14]
    rw [hcore, hid]

/-- Witness for C8: the spelling `if` followed by `;` yields the `If`
keyword token, and the maximal run `iffy` yields `Identifier`. -/
theorem keyword_exactness_witness :
    identifier [105, 102, 59] = some ((LexResult.ok Token.If, [105, 102]), [59]) ∧
    identifier [105, 102, 102, 121] =
      some ((LexResult.ok Token.Identifier, [105, 102, 102, 121]), []) := by
  constructor
  · have h := ((keyword_exactness [105, 102] [59] (by decide) (Or.inl (by decide))
      (by decide) (Or.inr (by decide))).1 (kwIf, Token.If) (by simp [keywords]) rfl).2
    simpa using h
  · have h := (keyword_exactness [105, 102, 102, 121] [] (by decide) (Or.inl (by decide))
      (by decide) (Or.inl rfl)).2 (by decide)
    simpa using h

/-- `hexLowerDigit` of a value below 16 is a lowercase hex digit character. -/
theorem hexLowerDigit_lower (n : Nat) (hn : n < 16) :
    isLowerHexDigitChar (hexLowerDigit n) = true := by
  by_cases h10 : n < 10
  · simp only [hexLowerDigit, if_pos h10, isLowerHexDigitChar, isAsciiDigit,
      Bool.or_eq_true, Bool.and_eq_true, decide_eq_true_eq]
    omega
  · simp only [hexLowerDigit, if_neg h10, isLowerHexDigitChar, isAsciiDigit,
      Bool.or_eq_true, Bool.and_eq_true, decide_eq_true_eq]
    omega

/-- `hexVal` inverts `hexLowerDigit` below 16. -/
theorem hexVal_hexLowerDigit (n : Nat) (hn : n < 16) : hexVal (hexLowerDigit n) = n := by
  by_cases h10 : n < 10
  · simp only [hexLowerDigit, hexVal, if_pos h10]
    rw [if_pos (by omega : 48 + n ≤ 57)]
    omega
  · simp only [hexLowerDigit, hexVal, if_neg h10]
    rw [if_neg (by omega : ¬(87 + n ≤ 57))]
    omega

/-- Claim C9: diagnostic byte rendering — `print_u8` renders an ASCII digit
byte as that character alone, and every other byte (in `u8` range) as `\x`
followed by exactly two lowercase hexadecimal digit characters whose value
decodes back to the byte. -/
theorem print_u8_rendering (c : Nat) (hc : c < 256) :
    (isAsciiDigit c = true → print_u8 c = [c]) ∧
    (isAsciiDigit c = false →
      print_u8 c = [92, 120, hexLowerDigit (c / 16), hexLowerDigit (c % 16)] ∧
      isLowerHexDigitChar (hexLowerDigit (c / 16)) = true ∧
      isLowerHexDigitChar (hexLowerDigit (c % 16)) = true ∧
      hexVal (hexLowerDigit (c / 16)) * 16 + hexVal (hexLowerDigit (c % 16)) = c) := by
  have hdiv : c / 16 < 16 := by omega
  have hmod : c % 16 < 16 := by omega
  constructor
  · intro h
    simp [print_u8, h]
  · intro h
    refine ⟨by simp [print_u8, h], hexLowerDigit_lower _ hdiv,
      hexLowerDigit_lower _ hmod, ?_⟩
    rw [hexVal_hexLowerDigit _ hdiv, hexVal_hexLowerDigit _ hmod]
    omega

/-- Witness for C9 at the digit byte `5` and the non-digit byte `200`. -/
theorem print_u8_rendering_witness :
    print_u8 53 = [53] ∧
    (print_u8 200 = [92, 120, hexLowerDigit (200 / 16), hexLowerDigit (200 % 16)] ∧
      isLowerHexDigitChar (hexLowerDigit (200 / 16)) = true ∧
      isLowerHexDigitChar (hexLowerDigit (200 % 16)) = true ∧
      hexVal (hexLowerDigit (200 / 16)) * 16 + hexVal (hexLowerDigit (200 % 16)) = 200) := by
  exact ⟨(print_u8_rendering 53 (by decide)).1 (by decide),
    (print_u8_rendering 200 (by decide)).2 (by decide)⟩

/-- Claim C10: the byte-validation pass of `get_string_errors` never reports
the final byte of the fragment — every `InvalidChar` or `InvalidEscape` it
emits indexes a byte strictly before the last one. -/
theorem string_last_byte_not_validated (s : List Nat) (c : Nat) (i : Nat)
    (h : (Error.InvalidChar c, i) ∈ get_string_errors s ∨
      (Error.InvalidEscape c, i) ∈ get_string_errors s) :
    i + 1 < s.length := by
  have key : ∀ e : Error, e ≠ Error.UnterminatedString →
      (e, i) ∈ get_string_errors s → i + 1 < s.length := by
    intro e hne hmem
    unfold get_string_errors at hmem
    rcases List.mem_append.mp hmem with hb | ht
    · have h2 := (stringByteErrors_facts _ _ _ _ _ hb).2
      rw [List.length_take, Nat.min_eq_left (Nat.sub_le _ _)] at h2
      omega
    · split at ht
      · simp at ht
        exact absurd ht.1 hne
      · simp at ht
  rcases h with h | h
  · exact key _ (fun hh => Error.noConfusion hh) h
  · exact key _ (fun hh => Error.noConfusion hh) h

/-- Witness for C10: the fragment `"` + tab + `a` holds an `InvalidChar` for
the tab at index 1, strictly before the final byte. -/
theorem string_last_byte_not_validated_witness :
    (Error.InvalidChar 9, 1) ∈ get_string_errors [34, 9, 97] ∧
      1 + 1 < [34, 9, 97].length := by
  exact ⟨by decide,
    string_last_byte_not_validated [34, 9, 97] 9 1 (Or.inl (by decide))⟩

end Dcf
